import Mathlib

/-!
Verification of the npgo package-manager core against its specification.

Each definition below is a shallow embedding of a Go function from the
repository, translated line by line:

* extractor: cleanTarPath, ExtractFromReader entry handling
  (internal/extractor/extract.go)
* resolver: normalizeVersion, resolveDependency memoization, TopoOrder
  (internal/resolver/resolver.go)
* registry: parseSemver, resolveVersionFromMap, FetchMetadata version
  selection (internal/registry/fetch.go)
* cas: PackagePath existence, EnsureDirs, the scratch-promotion sequence
  (internal/cas, internal/installer/installer.go)
* installer: InstallPackage effect trace, writeIntegrity
  (internal/installer/installer.go)

Strings are modelled with Lean strings; Go byte indexing is only applied
to ASCII inputs in the claims, where byte and character positions agree.
-/

/-! ### String primitives

Structurally recursive counterparts of the Go standard-library string
functions used by the embedded code.  They operate on the character list
of a string so that all theorems below reduce inside the kernel. -/

/-- Splitting a character list at every character satisfying p, keeping
empty pieces, as Go strings.Split and strings.FieldsFunc do before
filtering. -/
def splitCharsBy (p : Char → Bool) : List Char → List (List Char)
  | [] => [[]]
  | c :: rest =>
    let r := splitCharsBy p rest
    if p c then [] :: r
    else
      match r with
      | [] => [[c]]
      | g :: gs => (c :: g) :: gs

/-- Go strings.Split with a single-character separator. -/
def goSplitOn (sep : Char) (s : String) : List String :=
  (splitCharsBy (fun c => c == sep) s.data).map String.mk

/-- Go strings.Join with separator "/". -/
def joinSlash : List String → String
  | [] => ""
  | [p] => p
  | p :: rest => p ++ "/" ++ joinSlash rest

/-- Whether the first list is an initial segment of the second. -/
def listIsInitial : List Char → List Char → Bool
  | [], _ => true
  | _ :: _, [] => false
  | p :: ps, c :: cs => p == c && listIsInitial ps cs

/-- Go strings.HasPrefix. -/
def goHasPre (s pre : String) : Bool := listIsInitial pre.data s.data

/-- Go strings.HasSuffix. -/
def goHasSuf (s suf : String) : Bool := listIsInitial suf.data.reverse s.data.reverse

/-- Go strings.TrimPrefix: drop pre when it is present at the start. -/
def goTrimStart (s pre : String) : String :=
  if goHasPre s pre then String.mk (s.data.drop pre.data.length) else s

/-- Go strings.TrimSuffix: drop suf when it is present at the end. -/
def goTrimEnd (s suf : String) : String :=
  if goHasSuf s suf then String.mk (s.data.take (s.data.length - suf.data.length)) else s

/-! ### Extractor: cleanTarPath and tar entry handling -/

/-- Embedding of cleanTarPath (internal/extractor/extract.go).  The Go code
splits the entry name on "/", finds the first component that is neither
empty nor ".", drops everything up to and including that component, and
rejoins the rest. -/
def cleanTarPath (path : String) : String :=
  let parts := goSplitOn '/' path
  match parts.findIdx? (fun p => !(p == "") && !(p == ".")) with
  | none => ""
  | some i =>
    if i + 1 < parts.length then joinSlash (parts.drop (i + 1))
    else ""

/-- Lexical resolution of a relative path against a base directory, as
performed by filepath.Join followed by filepath.Clean: "." and empty
components are dropped, ".." pops the last component. -/
def resolveComps (base : List String) (rel : List String) : List String :=
  rel.foldl (fun acc c =>
    if c == "" || c == "." then acc
    else if c == ".." then acc.dropLast
    else acc ++ [c]) base

/-- Tar entry type flags distinguished by ExtractFromReader. -/
inductive TarType where
  | reg
  | dir
  | other
deriving DecidableEq

/-- A tar header as seen by ExtractFromReader: a type flag and a name. -/
structure TarHeader where
  typeflag : TarType
  name : String

/-- The filesystem paths that ExtractFromReader materializes for a list of
tar headers: regular files and directories are created at
filepath.Join(dest, cleanTarPath(name)) unless the cleaned path is empty;
all other entry types are skipped.  There is no check on ".." segments. -/
def createdPaths (dest : List String) (entries : List TarHeader) : List (List String) :=
  entries.filterMap (fun hd =>
    match hd.typeflag with
    | TarType.other => none
    | _ =>
      let c := cleanTarPath hd.name
      if c == "" then none
      else some (resolveComps dest (goSplitOn '/' c)))

/-- A concrete extraction destination used in the boundary theorems. -/
def destExample : List String := ["home", "user", "project", "node_modules", "pkg"]

/-- C1: a tar entry named "package/../../evil" is cleaned to "../../evil";
joining it under the destination directory yields a path OUTSIDE the
destination, and ExtractFromReader creates a file there rather than
rejecting the entry.  The plain entry "../evil" is not rejected either:
its ".." component is silently stripped and the file lands inside dest. -/
theorem extractFromReader_writes_outside_dest :
    cleanTarPath "package/../../evil" = "../../evil" ∧
    createdPaths destExample [⟨TarType.reg, "package/../../evil"⟩] =
      [["home", "user", "project", "evil"]] ∧
    List.isPrefixOf destExample ["home", "user", "project", "evil"] = false ∧
    cleanTarPath "../evil" = "evil" := by
  decide

/-- C4: cleanTarPath strips the first non-empty component whatever its
name: "package/a/b" becomes "a/b", but "lib/a" becomes "a" as well, so the
leading component "lib" is NOT preserved as the claim states. -/
theorem cleanTarPath_strips_any_first_component :
    cleanTarPath "package/a/b" = "a/b" ∧ cleanTarPath "lib/a" = "a" := by
  decide

/-! ### Resolver: normalizeVersion (internal/resolver/resolver.go) -/

/-- The whitespace predicate of Go unicode.IsSpace as used by
strings.Fields, restricted to the Latin-1 range it recognizes. -/
def goIsSpace (c : Char) : Bool :=
  c == ' ' || c == '\t' || c == '\n' || c == Char.ofNat 11 || c == Char.ofNat 12 ||
  c == '\r' || c == Char.ofNat 133 || c == Char.ofNat 160

/-- Go strings.Fields: split on whitespace, drop empty pieces. -/
def goFields (s : String) : List String :=
  ((splitCharsBy goIsSpace s.data).map String.mk).filter (fun t => !(t == ""))

/-- The operator-stripping chain at the top of normalizeVersion: one
TrimPrefix each for the caret, tilde and comparison operators, in source
order. -/
def stripOps (spec : String) : String :=
  goTrimStart (goTrimStart (goTrimStart (goTrimStart (goTrimStart (goTrimStart
    spec "^") "~") ">=") "<=") ">") "<"

/-- The final empty/star/latest collapse at the bottom of
normalizeVersion. -/
def finalizeSpec (t : String) : String :=
  if t == "" || t == "*" || t == "latest" then "latest" else t

/-- Embedding of normalizeVersion (internal/resolver/resolver.go).  After
stripping operators, the literal specs "1.x" and "1.*" map to "1"; a
trailing ".x" or ".*" is stripped; a spec containing a space is replaced
by its first whitespace-separated field (the Go code indexes Fields()[0],
which panics when the spec is entirely whitespace — modelled as none);
finally "", "*" and "latest" collapse to "latest". -/
def normalizeVersion (spec : String) : Option String :=
  let s1 := stripOps spec
  if s1 == "1.x" || s1 == "1.*" then some "1"
  else
    let s2 := if goHasSuf s1 ".x" || goHasSuf s1 ".*" then
                goTrimEnd (goTrimEnd s1 ".x") ".*"
              else s1
    if s2.data.any (fun c => c == ' ') then
      match goFields s2 with
      | [] => none
      | f :: _ => some (finalizeSpec f)
    else some (finalizeSpec s2)

/-- Numeric value of a digit string, as accumulated by the parsing loops in
internal/registry/fetch.go. -/
def digitVal (cs : List Char) : Nat := cs.foldl (fun a c => a * 10 + (c.toNat - 48)) 0

/-- Embedding of parseSemver (internal/registry/fetch.go): every character
must be a digit or a dot; the first three dot-separated segments give the
triple, missing segments default to 0, extra segments are ignored.  The Go
function signals rejection with (-1,-1,-1), modelled as none. -/
def parseSemver (v : String) : Option (Nat × Nat × Nat) :=
  let segs := goSplitOn '.' v
  if segs.all (fun s => s.data.all Char.isDigit) then
    let vals := segs.map (fun s => digitVal s.data)
    some (vals.getD 0 0, vals.getD 1 0, vals.getD 2 0)
  else none

/-- Embedding of resolveVersionFromMap (internal/registry/fetch.go).  A
trailing ".x"/".*" is stripped when the spec is longer than 2 characters;
the spec must then consist of one or two dot-separated digit segments,
otherwise "" is returned; among the version keys that parse as semver and
whose leading segments equal the spec prefix, the numerically greatest is
returned.  The version keys are folded in list order; Go iterates a map,
whose order only matters when two keys share a numeric triple. -/
def resolveVersionFromMap (versions : List String) (spec : String) : String :=
  let s := if spec.data.length > 2 && (goHasSuf spec ".x" || goHasSuf spec ".*") then
             String.mk (spec.data.take (spec.data.length - 2))
           else spec
  if s == "" then ""
  else
    let segsL := goSplitOn '.' s
    if !(segsL.all (fun t => t.data.all Char.isDigit)) then ""
    else if segsL.length > 2 then ""
    else
      let p0 := digitVal (segsL.getD 0 "").data
      let p1 := digitVal (segsL.getD 1 "").data
      let best := versions.foldl (fun acc v =>
        match parseSemver v with
        | none => acc
        | some (mj, mn, pt) =>
          let segMatch := if segsL.length == 1 then mj == p0 else mj == p0 && mn == p1
          if segMatch then
            match acc with
            | none => some (v, mj, mn, pt)
            | some (bv, bmj, bmn, bpt) =>
              if mj > bmj || (mj == bmj && (mn > bmn || (mn == bmn && pt > bpt))) then
                some (v, mj, mn, pt)
              else some (bv, bmj, bmn, bpt)
          else acc) none
      match best with
      | none => ""
      | some b => b.1

/-- A registry index document as consumed by FetchMetadata: the set of
version keys and the dist-tags.latest value. -/
structure RegistryDoc where
  versions : List String
  latest : String

/-- The version-selection logic of FetchMetadata
(internal/registry/fetch.go): "latest" maps to the dist-tag, an exact key
match wins, otherwise resolveVersionFromMap is consulted and an empty
result is the version-not-found error, modelled as none. -/
def fetchMetadataVersion (doc : RegistryDoc) (version : String) : Option String :=
  let target := if version == "latest" then doc.latest else version
  if doc.versions.contains target then some target
  else
    let r := resolveVersionFromMap doc.versions target
    if r == "" then none else some r

/-- The registry document of the C3 scenario. -/
def docC3 : RegistryDoc := ⟨["1.0.0", "1.2.3", "1.2.9", "2.0.0"], "2.0.0"⟩

/-- C3 counterexample: with versions 1.0.0, 1.2.3, 1.2.9, 2.0.0 the
specifier caret-1.2.0 does NOT resolve to 1.2.9: the caret is stripped and
1.2.0 is tried as an exact match, but since 1.2.0 is absent and
resolveVersionFromMap rejects specs with three numeric segments, the
resolution fails instead of falling back to the greatest 1.2.x. -/
theorem fetchMetadata_caret120_fails :
    normalizeVersion "^1.2.0" = some "1.2.0" ∧
    fetchMetadataVersion docC3 "1.2.0" = none ∧
    resolveVersionFromMap docC3.versions "1.2.0" = "" ∧
    ¬((normalizeVersion "^1.2.0").bind (fun v => fetchMetadataVersion docC3 v) =
        some "1.2.9") := by
  decide

/-- C3 amended: the fallback applies only to one- or two-segment prefixes,
so caret-1.2.0 fails with version-not-found, while two-segment specifiers
such as caret-1.2 or 1.2.x do resolve to 1.2.9. -/
theorem fetchMetadata_prefix_fallback :
    (normalizeVersion "^1.2.0").bind (fun v => fetchMetadataVersion docC3 v) = none ∧
    (normalizeVersion "^1.2").bind (fun v => fetchMetadataVersion docC3 v) = some "1.2.9" ∧
    (normalizeVersion "1.2.x").bind (fun v => fetchMetadataVersion docC3 v) = some "1.2.9" ∧
    (normalizeVersion "1").bind (fun v => fetchMetadataVersion docC3 v) = some "1.2.9" := by
  decide

/-- C6 counterexample: normalizeVersion is not idempotent.  A doubled
operator needs two passes: one pass over the doubled caret spec strips a
single caret, a second pass strips the other. -/
theorem normalizeVersion_not_idempotent :
    normalizeVersion "^^1" = some "^1" ∧
    (normalizeVersion "^^1").bind normalizeVersion = some "1" ∧
    ¬((normalizeVersion "^^1").bind normalizeVersion = normalizeVersion "^^1") := by
  decide

/-- TrimPrefix is the identity when the prefix is absent. -/
theorem goTrimStart_of_not {s p : String} (h : goHasPre s p = false) :
    goTrimStart s p = s := by
  simp [goTrimStart, h]

/-- C6 amended: one pass of normalizeVersion may shift its input again on a
second pass (doubled operators, stacked wildcard suffixes), but whenever
the first pass lands on a normal form — no leading operator character, not
the literal 1.x or 1.*, no trailing .x or .*, no space, and either
"latest" or different from "" and "*" — a second pass changes nothing. -/
theorem normalizeVersion_idempotent_on_normal_forms (s t : String)
    (h : normalizeVersion s = some t)
    (h1 : goHasPre t "^" = false) (h2 : goHasPre t "~" = false)
    (h3 : goHasPre t ">=" = false) (h4 : goHasPre t "<=" = false)
    (h5 : goHasPre t ">" = false) (h6 : goHasPre t "<" = false)
    (h7 : (t == "1.x") = false) (h8 : (t == "1.*") = false)
    (h9 : goHasSuf t ".x" = false) (h10 : goHasSuf t ".*" = false)
    (h11 : t.data.any (fun c => c == ' ') = false)
    (h12 : t = "latest" ∨ ((t == "") = false ∧ (t == "*") = false)) :
    (normalizeVersion s).bind normalizeVersion = normalizeVersion s := by
  have e1 : stripOps t = t := by
    unfold stripOps
    rw [goTrimStart_of_not h1, goTrimStart_of_not h2, goTrimStart_of_not h3,
        goTrimStart_of_not h4, goTrimStart_of_not h5, goTrimStart_of_not h6]
  have e2 : finalizeSpec t = t := by
    unfold finalizeSpec
    rcases h12 with h12 | ⟨ha, hb⟩
    · subst h12; decide
    · by_cases hl : t = "latest"
      · subst hl; decide
      · simp [ha, hb, hl]
  have key : normalizeVersion t = some t := by
    simp only [normalizeVersion, e1, h7, h8, h9, h10, h11, Bool.or_self, Bool.or_false,
      if_false, Bool.false_eq_true, ite_false, e2]
  rw [h]
  simpa [Option.bind] using key

/-- C6 witness: the amended idempotence at the concrete spec caret-1.2.3,
whose normal form 1.2.3 satisfies all side conditions. -/
theorem normalizeVersion_idempotent_witness :
    normalizeVersion "^1.2.3" = some "1.2.3" ∧
    (normalizeVersion "^1.2.3").bind normalizeVersion = normalizeVersion "^1.2.3" :=
  ⟨by decide,
   normalizeVersion_idempotent_on_normal_forms "^1.2.3" "1.2.3" (by decide) (by decide)
     (by decide) (by decide) (by decide) (by decide) (by decide) (by decide) (by decide)
     (by decide) (by decide) (by decide) (Or.inr ⟨by decide, by decide⟩)⟩

/-! ### Resolver: resolveDependency memoization (internal/resolver/resolver.go)

The resolver cache maps the string key name@spec to a Dependency object.
Object identity is modelled by an allocation id: every cache miss that
succeeds allocates a fresh id and records the (name, resolved) pair of the
new node. -/

/-- The identity-relevant fields of an allocated Dependency node. -/
structure DepNodeRec where
  id : Nat
  name : String
  resolved : String
deriving DecidableEq

/-- Resolver state: the name@spec memoization cache, the allocation record
of every Dependency created so far, and the next fresh id. -/
structure ResolverState where
  cache : List (String × Nat)
  nodes : List DepNodeRec
  nextId : Nat
deriving DecidableEq

/-- Embedding of resolveDependency (internal/resolver/resolver.go).  The
registry environment maps (name, normalized spec) to the resolved version
returned by getMetadataCached.  On a cache hit the memoized node is
returned; on a miss the spec is normalized, the registry consulted, and a
fresh node allocated and memoized under name@spec. -/
def resolveDependency (reg : String → String → Option String) (st : ResolverState)
    (name spec : String) : Option Nat × ResolverState :=
  match st.cache.find? (fun e => e.1 == name ++ "@" ++ spec) with
  | some e => (some e.2, st)
  | none =>
    match normalizeVersion spec with
    | none => (none, st)
    | some nv =>
      match reg name nv with
      | none => (none, st)
      | some resolved =>
        (some st.nextId,
         { cache := st.cache ++ [(name ++ "@" ++ spec, st.nextId)],
           nodes := st.nodes ++ [⟨st.nextId, name, resolved⟩],
           nextId := st.nextId + 1 })

/-- A registry environment with a single package a at version 1.0.0. -/
def regA : String → String → Option String := fun n v =>
  if n == "a" && v == "1.0.0" then some "1.0.0" else none

/-- The state after resolving the requirement (a, caret-1.0.0). -/
def stA1 : ResolverState := (resolveDependency regA ⟨[], [], 0⟩ "a" "^1.0.0").2

/-- The state after additionally resolving the requirement (a, 1.0.0). -/
def stA2 : ResolverState := (resolveDependency regA stA1 "a" "1.0.0").2

/-- C8 counterexample: the requirements (a, caret-1.0.0) and (a, 1.0.0)
both resolve to version 1.0.0, yet they produce two DISTINCT Dependency
instances (allocation ids 0 and 1) with the same (name, resolved)
identity: memoization is keyed by (name, spec), not by (name, resolved). -/
theorem resolveDependency_distinct_nodes_same_identity :
    (resolveDependency regA ⟨[], [], 0⟩ "a" "^1.0.0").1 = some 0 ∧
    (resolveDependency regA stA1 "a" "1.0.0").1 = some 1 ∧
    stA2.nodes = [⟨0, "a", "1.0.0"⟩, ⟨1, "a", "1.0.0"⟩] ∧
    ¬((resolveDependency regA ⟨[], [], 0⟩ "a" "^1.0.0").1 =
        (resolveDependency regA stA1 "a" "1.0.0").1) := by
  decide

/-- find? over an appended list starts in the left part. -/
theorem find?_append_of_none {α : Type} {p : α → Bool} {l1 l2 : List α}
    (h : l1.find? p = none) : (l1 ++ l2).find? p = l2.find? p := by
  induction l1 with
  | nil => simp
  | cons a l ih =>
    cases hb : p a with
    | true => simp [List.find?, hb] at h
    | false =>
      simp only [List.cons_append, List.find?, hb] at h ⊢
      exact ih h

/-- C8 amended: memoization by (name, spec) does hold — resolving the same
requirement again returns the very same node and leaves the resolver state
unchanged, so a single DepNode instance is shared across identical
requirements. -/
theorem resolveDependency_memoized_by_name_spec
    (reg : String → String → Option String) (st : ResolverState) (name spec : String) :
    resolveDependency reg (resolveDependency reg st name spec).2 name spec =
      resolveDependency reg st name spec := by
  unfold resolveDependency
  rcases hf : st.cache.find? (fun e => e.1 == name ++ "@" ++ spec) with _ | e
  · rcases hn : normalizeVersion spec with _ | nv
    · simp [hf, hn]
    · rcases hr : reg name nv with _ | resolved
      · simp [hf, hn, hr]
      · simp only [hf, hn, hr]
        rw [find?_append_of_none hf]
        simp
  · simp [hf]

/-! ### Resolver: TopoOrder (internal/resolver/resolver.go)

The Go graph maps the string key name@resolved to a Dependency pointer;
nodes are identified by pointer.  The embedding identifies each node by a
Nat id and carries, per graph entry, the list of child ids read from the
node, in the iteration order of the map (Go map iteration order is
unspecified; it selects which permutation is produced, not whether the
output is one). -/

/-- A dependency graph: one entry per map key, pairing the node id with
the ids listed in its Dependencies map. -/
abbrev DepGraphGo := List (Nat × List Nat)

/-- The node list, i.e. the values of the graph map in iteration order. -/
def graphNodes (g : DepGraphGo) : List Nat := g.map Prod.fst

/-- All child occurrences across the graph, with multiplicity: the Go code
increments indeg[c] once per occurrence. -/
def allChildren (g : DepGraphGo) : List Nat := g.foldl (fun acc e => acc ++ e.2) []

/-- The children recorded for a node, as read off the graph entry. -/
def childrenOf (g : DepGraphGo) (n : Nat) : List Nat :=
  match g.find? (fun e => e.1 == n) with
  | some e => e.2
  | none => []

/-- Processing the children of a dequeued node: decrement each child's
in-degree and enqueue children whose in-degree reaches zero, exactly as
the inner loop of TopoOrder does. -/
def kahnStep (indeg : Nat → Int) (q : List Nat) : List Nat → (Nat → Int) × List Nat
  | [] => (indeg, q)
  | c :: cs =>
    let ind2 : Nat → Int := fun m => if m = c then indeg c - 1 else indeg m
    let q2 := if ind2 c = 0 then q ++ [c] else q
    kahnStep ind2 q2 cs

/-- The Kahn queue loop of TopoOrder.  The fuel argument bounds the number
of dequeues; TopoOrder passes a bound that exceeds the maximum possible
number of enqueues (initial queue plus one per child occurrence), so the
loop always drains. -/
def kahnLoop (children : Nat → List Nat) : Nat → (Nat → Int) → List Nat → List Nat
  | 0, _, _ => []
  | _ + 1, _, [] => []
  | fuel + 1, indeg, d :: q =>
    let p := kahnStep indeg q (children d)
    d :: kahnLoop children fuel p.1 p.2

/-- Order-preserving deduplication via a seen set, as the uniq loop and
the trailing cycle-completion loop of TopoOrder both perform. -/
def dedupKeepFirst (init : List Nat) (l : List Nat) : List Nat :=
  l.foldl (fun acc d => if d ∈ acc then acc else acc ++ [d]) init

/-- The initial in-degree map of TopoOrder: number of child occurrences. -/
def topoIndeg (g : DepGraphGo) : Nat → Int := fun n => ((allChildren g).count n : Int)

/-- The initial queue of TopoOrder: nodes with in-degree zero, in node
order. -/
def topoQueue0 (g : DepGraphGo) : List Nat :=
  (graphNodes g).filter (fun n => topoIndeg g n = 0)

/-- The raw emission order of the Kahn loop. -/
def topoOrderRaw (g : DepGraphGo) : List Nat :=
  kahnLoop (childrenOf g) ((graphNodes g).length + (allChildren g).length + 1)
    (topoIndeg g) (topoQueue0 g)

/-- Embedding of TopoOrder (internal/resolver/resolver.go): run Kahn,
deduplicate the emission order keeping first occurrences, and if nodes are
missing (a cycle kept their in-degree positive) append the remaining nodes
in graph iteration order instead of failing. -/
def TopoOrder (g : DepGraphGo) : List Nat :=
  let uniq := dedupKeepFirst [] (topoOrderRaw g)
  if uniq.length ≠ (graphNodes g).length then dedupKeepFirst uniq (graphNodes g) else uniq

/-- Membership in a deduplicated list comes from the seen set or the input
list. -/
theorem mem_dedupKeepFirst {init l : List Nat} {x : Nat}
    (hx : x ∈ dedupKeepFirst init l) : x ∈ init ∨ x ∈ l := by
  induction l generalizing init with
  | nil => exact Or.inl hx
  | cons a l ih =>
    unfold dedupKeepFirst at hx
    rw [List.foldl_cons] at hx
    rcases ih hx with h | h
    · by_cases ha : a ∈ init
      · rw [if_pos ha] at h
        exact Or.inl h
      · rw [if_neg ha] at h
        rcases List.mem_append.1 h with h | h
        · exact Or.inl h
        · simp at h
          subst h
          exact Or.inr (List.mem_cons_self _ _)
    · exact Or.inr (List.mem_cons_of_mem a h)

/-- The seen set survives deduplication. -/
theorem init_subset_dedupKeepFirst {init l : List Nat} {x : Nat}
    (hx : x ∈ init) : x ∈ dedupKeepFirst init l := by
  induction l generalizing init with
  | nil => exact hx
  | cons a l ih =>
    unfold dedupKeepFirst
    rw [List.foldl_cons]
    by_cases ha : a ∈ init
    · rw [if_pos ha]
      exact ih hx
    · rw [if_neg ha]
      exact ih (List.mem_append.2 (Or.inl hx))

/-- Every input element ends up in the deduplicated list. -/
theorem mem_of_mem_dedupKeepFirst {init l : List Nat} {x : Nat}
    (hx : x ∈ l) : x ∈ dedupKeepFirst init l := by
  induction l generalizing init with
  | nil => cases hx
  | cons a l ih =>
    unfold dedupKeepFirst
    rw [List.foldl_cons]
    rcases List.mem_cons.1 hx with h | h
    · subst h
      by_cases ha : x ∈ init
      · rw [if_pos ha]
        exact init_subset_dedupKeepFirst ha
      · rw [if_neg ha]
        exact init_subset_dedupKeepFirst (List.mem_append.2 (Or.inr (List.mem_singleton.2 rfl)))
    · exact ih h

/-- Deduplication preserves freedom from duplicates of the seen set. -/
theorem nodup_dedupKeepFirst {init l : List Nat} (hn : init.Nodup) :
    (dedupKeepFirst init l).Nodup := by
  induction l generalizing init with
  | nil => exact hn
  | cons a l ih =>
    unfold dedupKeepFirst
    rw [List.foldl_cons]
    by_cases ha : a ∈ init
    · rw [if_pos ha]
      exact ih hn
    · rw [if_neg ha]
      refine ih ?_
      rw [List.nodup_append]
      exact ⟨hn, List.nodup_singleton a, by simpa using ha⟩

/-- Elements enqueued by kahnStep are former queue elements or children of
the dequeued node. -/
theorem kahnStep_mem {cs : List Nat} {indeg : Nat → Int} {q : List Nat} {x : Nat}
    (hx : x ∈ (kahnStep indeg q cs).2) : x ∈ q ∨ x ∈ cs := by
  induction cs generalizing indeg q with
  | nil => exact Or.inl hx
  | cons c cs ih =>
    unfold kahnStep at hx
    rcases ih hx with h | h
    · by_cases hc : (fun m => if m = c then indeg c - 1 else indeg m) c = 0
      · rw [if_pos hc] at h
        rcases List.mem_append.1 h with h | h
        · exact Or.inl h
        · simp at h
          subst h
          exact Or.inr (List.mem_cons_self _ _)
      · rw [if_neg hc] at h
        exact Or.inl h
    · exact Or.inr (List.mem_cons_of_mem c h)

/-- Every node emitted by the Kahn loop lies in the node set, provided the
queue starts inside it and children stay inside it. -/
theorem kahnLoop_mem {children : Nat → List Nat} {nodes : List Nat}
    (hch : ∀ d x, x ∈ children d → x ∈ nodes) :
    ∀ (fuel : Nat) (indeg : Nat → Int) (q : List Nat),
      (∀ x ∈ q, x ∈ nodes) → ∀ x ∈ kahnLoop children fuel indeg q, x ∈ nodes := by
  intro fuel
  induction fuel with
  | zero => intro indeg q _ x hx; cases hx
  | succ fuel ih =>
    intro indeg q hq x hx
    match q with
    | [] => cases hx
    | d :: q =>
      unfold kahnLoop at hx
      rcases List.mem_cons.1 hx with h | h
      · subst h
        exact hq x (List.mem_cons_self x q)
      · refine ih _ _ ?_ x h
        intro y hy
        rcases kahnStep_mem hy with h2 | h2
        · exact hq y (List.mem_cons_of_mem d h2)
        · exact hch d y h2

/-- Children recorded in the graph are nodes of the graph, given the
closedness hypothesis. -/
theorem childrenOf_mem {g : DepGraphGo}
    (hcl : ∀ e ∈ g, ∀ c ∈ e.2, c ∈ graphNodes g) :
    ∀ n x, x ∈ childrenOf g n → x ∈ graphNodes g := by
  intro n x hx
  unfold childrenOf at hx
  rcases hf : g.find? (fun e => e.1 == n) with _ | e
  · rw [hf] at hx
    cases hx
  · rw [hf] at hx
    exact hcl e (List.mem_of_find?_eq_some hf) x hx

/-- C7: for every graph whose recorded children are nodes of the graph and
whose node ids are distinct — cyclic graphs included — TopoOrder returns a
permutation of the node set: every node exactly once, length equal to the
node count. -/
theorem topoOrder_returns_permutation (g : DepGraphGo)
    (hnd : (graphNodes g).Nodup)
    (hcl : ∀ e ∈ g, ∀ c ∈ e.2, c ∈ graphNodes g) :
    (TopoOrder g).Perm (graphNodes g) := by
  have horder : ∀ x ∈ topoOrderRaw g, x ∈ graphNodes g := by
    intro x hx
    refine kahnLoop_mem (childrenOf_mem hcl) _ _ _ ?_ x hx
    intro y hy
    exact List.mem_of_mem_filter hy
  have hu_nodup : (dedupKeepFirst [] (topoOrderRaw g)).Nodup :=
    nodup_dedupKeepFirst List.nodup_nil
  have hu_sub : ∀ x ∈ dedupKeepFirst [] (topoOrderRaw g), x ∈ graphNodes g := by
    intro x hx
    rcases mem_dedupKeepFirst hx with h | h
    · cases h
    · exact horder x h
  unfold TopoOrder
  by_cases hlen :
      (dedupKeepFirst [] (topoOrderRaw g)).length ≠ (graphNodes g).length
  · rw [if_pos hlen]
    refine (List.perm_ext_iff_of_nodup (nodup_dedupKeepFirst hu_nodup) hnd).2 ?_
    intro a
    constructor
    · intro ha
      rcases mem_dedupKeepFirst ha with h | h
      · exact hu_sub a h
      · exact h
    · intro ha
      exact mem_of_mem_dedupKeepFirst ha
  · rw [if_neg hlen]
    push_neg at hlen
    have hsp : (dedupKeepFirst [] (topoOrderRaw g)).Subperm (graphNodes g) :=
      List.Nodup.subperm hu_nodup (fun x hx => hu_sub x hx)
    exact hsp.perm_of_length_le (le_of_eq hlen.symm)

/-- The two-node cycle used as the C7 witness. -/
def gCycle : DepGraphGo := [(0, [1]), (1, [0])]

/-- C7 witness: on the concrete cycle a depends on b depends on a, both
hypotheses hold and TopoOrder emits a permutation of both nodes. -/
theorem topoOrder_permutation_witness :
    ((graphNodes gCycle).Nodup ∧ (∀ e ∈ gCycle, ∀ c ∈ e.2, c ∈ graphNodes gCycle)) ∧
    (TopoOrder gCycle).Perm (graphNodes gCycle) :=
  ⟨⟨by decide, by decide⟩,
   topoOrder_returns_permutation gCycle (by decide) (by decide)⟩

/-! ### CAS store (internal/cas) and the promotion sequence of
InstallPackage / InstallPipeline (internal/installer/installer.go)

The store state is abstracted per hash: dirs lists the hashes whose
canonical directory store/(hash)/package exists on disk, and complete
lists the hashes whose canonical directory holds the full extracted
package tree.  The spec invariant says every existing canonical directory
is complete. -/

/-- The relevant state of the CAS store root. -/
structure CasFs where
  dirs : List String
  complete : List String
deriving DecidableEq

/-- Embedding of cas.Exists: os.Stat on store/(hash)/package succeeds and
reports a directory. -/
def casPackageDirExists (fs : CasFs) (hash : String) : Bool := fs.dirs.contains hash

/-- Embedding of cas.EnsureDirs: os.MkdirAll(store/(hash)/package) creates
the canonical package directory itself — empty — when it does not yet
exist, and returns its path. -/
def casEnsureDirs (fs : CasFs) (hash : String) : CasFs :=
  if fs.dirs.contains hash then fs else { fs with dirs := fs.dirs ++ [hash] }

/-- The CAS promotion sequence of InstallPackage (installer.go lines
95-113) and of the InstallPipeline download worker: EnsureDirs first, then
the cas.Exists check, and only when the check fails an os.Rename of the
fully extracted scratch directory onto the canonical path. -/
def casPromoteScratch (fs : CasFs) (hash : String) : CasFs :=
  let fs1 := casEnsureDirs fs hash
  if casPackageDirExists fs1 hash = false then
    { dirs := fs1.dirs ++ [hash], complete := fs1.complete ++ [hash] }
  else fs1

/-- C2: for a hash not yet in the store, EnsureDirs creates the canonical
package directory EMPTY, so between EnsureDirs and the rename a
partially-populated (empty) canonical directory is observable; worse, the
cas.Exists check that follows sees exactly that directory and skips the
rename, so the promotion sequence ends with the canonical directory still
existing and still not complete. -/
theorem casPromotion_observable_empty_dir (fs : CasFs) (hash : String)
    (h1 : fs.dirs.contains hash = false) (h2 : fs.complete.contains hash = false) :
    casPackageDirExists (casEnsureDirs fs hash) hash = true ∧
    (casEnsureDirs fs hash).complete.contains hash = false ∧
    casPromoteScratch fs hash = casEnsureDirs fs hash ∧
    (casPromoteScratch fs hash).complete.contains hash = false ∧
    casPackageDirExists (casPromoteScratch fs hash) hash = true := by
  have h1m : hash ∉ fs.dirs := by simpa using h1
  have hd : casEnsureDirs fs hash = { fs with dirs := fs.dirs ++ [hash] } := by
    unfold casEnsureDirs
    rw [if_neg (by simp [h1m])]
  have hex : casPackageDirExists (casEnsureDirs fs hash) hash = true := by
    rw [hd]
    simp [casPackageDirExists]
  have hco : (casEnsureDirs fs hash).complete.contains hash = false := by
    rw [hd]
    exact h2
  have hpr : casPromoteScratch fs hash = casEnsureDirs fs hash := by
    simp [casPromoteScratch, hex]
  refine ⟨hex, hco, hpr, ?_, ?_⟩
  · rw [hpr]
    exact hco
  · rw [hpr]
    exact hex

/-- C2 witness: the empty store and a concrete tarball hash. -/
theorem casPromotion_observable_empty_dir_witness :
    ((CasFs.mk [] []).dirs.contains "4242" = false ∧
      (CasFs.mk [] []).complete.contains "4242" = false) ∧
    (casPackageDirExists (casEnsureDirs (CasFs.mk [] []) "4242") "4242" = true ∧
      (casPromoteScratch (CasFs.mk [] []) "4242").complete.contains "4242" = false) :=
  ⟨⟨by decide, by decide⟩,
   ⟨(casPromotion_observable_empty_dir (CasFs.mk [] []) "4242" (by decide) (by decide)).1,
    (casPromotion_observable_empty_dir (CasFs.mk [] []) "4242" (by decide) (by decide)).2.2.2.1⟩⟩

/-! ### Installer: InstallPackage (internal/installer/installer.go)

The function is modelled as a trace of filesystem/network effects driven
by an environment that fixes the outcome of each external call, following
the source control flow line by line. -/

/-- The observable effects of one InstallPackage run. -/
inductive Eff where
  | statSlot
  | readMarker
  | removeSlot
  | mkdirModules
  | cacheCheck
  | fetchMeta
  | streamTar
  | extractTmp
  | removeTmp
  | casEnsure
  | casStat
  | casRename
  | ensureExtracted
  | linkExtract
  | symlinkSlot
  | globalLink
  | linkBins
  | writeMarker
deriving DecidableEq

/-- Network requests: registry metadata fetch and tarball streaming. -/
def Eff.isNetwork : Eff → Bool
  | .fetchMeta => true
  | .streamTar => true
  | _ => false

/-- Effects that write to the filesystem (reads and stats excluded). -/
def Eff.isFsWrite : Eff → Bool
  | .statSlot => false
  | .readMarker => false
  | .cacheCheck => false
  | .casStat => false
  | .fetchMeta => false
  | .streamTar => false
  | _ => true

/-- Effects that re-create content under the installed slot
node_modules/(name): the symlink of the slot and its integrity marker. -/
def Eff.writesSlot : Eff → Bool
  | .symlinkSlot => true
  | .writeMarker => true
  | _ => false

/-- The metadata returned by registry.FetchMetadata. -/
structure Metadata where
  version : String
  tarballURL : String
deriving DecidableEq

/-- Outcomes of the external calls InstallPackage makes, fixed up front:
whether the slot directory exists, the marker version readIntegrity
returns (none models a read/parse error), and the success of each
subsequent step. -/
structure InstallEnv where
  slotExists : Bool
  markerVersion : Option String
  mkdirOk : Bool
  cacheHasSpec : Bool
  fetchResult : Option Metadata
  cacheHasResolved : Bool
  streamOk : Bool
  extractOk : Bool
  cas : CasFs
  tarballHash : String
  linkExtractOk : Bool
  symlinkOk : Bool

/-- The tail of InstallPackage (installer.go lines 130-156): createSymlink
into node_modules, then the ignored-error global link, bin shims and
integrity write, returning the resolved version. -/
def installLinkPhase (env : InstallEnv) (resolved : String) :
    Except String String × List Eff :=
  if env.symlinkOk = false then (Except.error "failed to create symlink", [Eff.symlinkSlot])
  else (Except.ok resolved,
        [Eff.symlinkSlot, Eff.globalLink, Eff.linkBins, Eff.writeMarker])

/-- InstallPackage after node_modules has been created (installer.go lines
59-156): cache probe by requested version, metadata fetch, cache probe by
resolved version, tarball stream, extraction into a scratch directory, the
CAS promotion sequence, the extract-cache link, then the link phase. -/
def installFetchPhase (env : InstallEnv) (version : String) :
    Except String String × List Eff :=
  if env.cacheHasSpec then
    let r := installLinkPhase env version
    (r.1, Eff.cacheCheck :: r.2)
  else
    match env.fetchResult with
    | none => (Except.error "failed to fetch metadata", [Eff.cacheCheck, Eff.fetchMeta])
    | some md =>
      if env.cacheHasResolved then
        let r := installLinkPhase env md.version
        (r.1, [Eff.cacheCheck, Eff.fetchMeta, Eff.cacheCheck] ++ r.2)
      else if env.streamOk = false then
        (Except.error "failed to stream tarball",
         [Eff.cacheCheck, Eff.fetchMeta, Eff.cacheCheck, Eff.streamTar])
      else if env.extractOk = false then
        (Except.error "extract failed",
         [Eff.cacheCheck, Eff.fetchMeta, Eff.cacheCheck, Eff.streamTar, Eff.extractTmp,
          Eff.removeTmp])
      else
        let casTrace :=
          if casPackageDirExists (casEnsureDirs env.cas env.tarballHash) env.tarballHash
              = false then
            [Eff.casEnsure, Eff.casStat, Eff.casRename]
          else [Eff.casEnsure, Eff.casStat]
        if env.linkExtractOk = false then
          (Except.error "link extract failed",
           [Eff.cacheCheck, Eff.fetchMeta, Eff.cacheCheck, Eff.streamTar, Eff.extractTmp] ++
             casTrace ++ [Eff.removeTmp, Eff.ensureExtracted, Eff.linkExtract])
        else
          let r := installLinkPhase env md.version
          (r.1,
           [Eff.cacheCheck, Eff.fetchMeta, Eff.cacheCheck, Eff.streamTar, Eff.extractTmp] ++
             casTrace ++ [Eff.removeTmp, Eff.ensureExtracted, Eff.linkExtract] ++ r.2)

/-- InstallPackage after the idempotency check (installer.go lines
55-156): create node_modules, then continue. -/
def installAfterCheck (env : InstallEnv) (version : String) :
    Except String String × List Eff :=
  let r := if env.mkdirOk = false then
             ((Except.error "failed to create node_modules" : Except String String),
              ([] : List Eff))
           else installFetchPhase env version
  (r.1, Eff.mkdirModules :: r.2)

/-- Embedding of InstallPackage (installer.go lines 44-157).  The slot is
stat-ed; when it exists, the integrity marker version is read (an error
yields the empty string, as the Go code discards the error) and compared
with the requested version: on a match the requested version is returned
at once; otherwise the slot is removed with os.RemoveAll and the install
proceeds. -/
def InstallPackage (env : InstallEnv) (version : String) :
    Except String String × List Eff :=
  if env.slotExists && (env.markerVersion.getD "" == version) then
    (Except.ok version, [Eff.statSlot, Eff.readMarker])
  else
    let pre := if env.slotExists then [Eff.statSlot, Eff.readMarker, Eff.removeSlot]
               else [Eff.statSlot]
    let r := installAfterCheck env version
    (r.1, pre ++ r.2)

/-- C5: when the slot exists and its integrity marker version equals the
requested version, InstallPackage returns that version after only the stat
and the marker read — no network request, no extraction, no filesystem
write; when the marker holds a different version, the slot is removed and
a fresh install proceeds (node_modules is re-created next). -/
theorem installPackage_skip_on_matching_marker (env : InstallEnv) (version : String)
    (hex : env.slotExists = true) :
    (env.markerVersion = some version →
      InstallPackage env version = (Except.ok version, [Eff.statSlot, Eff.readMarker]) ∧
      ([Eff.statSlot, Eff.readMarker].all (fun e => !e.isNetwork && !e.isFsWrite)) = true) ∧
    (∀ w, env.markerVersion = some w → w ≠ version →
      ∃ t, (InstallPackage env version).2 =
        [Eff.statSlot, Eff.readMarker, Eff.removeSlot, Eff.mkdirModules] ++ t) := by
  constructor
  · intro hm
    constructor
    · simp [InstallPackage, hex, hm]
    · decide
  · intro w hm hne
    have hb : (env.markerVersion.getD "" == version) = false := by
      simp [hm]
      exact hne
    simp only [InstallPackage, hb, Bool.and_false, Bool.false_eq_true, if_false, hex,
      if_true, installAfterCheck]
    exact ⟨_, rfl⟩

/-- The concrete environment of the C5 witness: slot installed at 1.0.0,
everything else untouched. -/
def envSkip : InstallEnv :=
  { slotExists := true, markerVersion := some "1.0.0", mkdirOk := true,
    cacheHasSpec := false, fetchResult := none, cacheHasResolved := false,
    streamOk := false, extractOk := false, cas := ⟨[], []⟩, tarballHash := "",
    linkExtractOk := false, symlinkOk := false }

/-- C5 witness: requesting version 1.0.0 against a slot whose marker says
1.0.0 returns at once with only the stat and marker read; requesting 2.0.0
removes the slot and proceeds. -/
theorem installPackage_skip_witness :
    InstallPackage envSkip "1.0.0" = (Except.ok "1.0.0", [Eff.statSlot, Eff.readMarker]) ∧
    (∃ t, (InstallPackage envSkip "2.0.0").2 =
      [Eff.statSlot, Eff.readMarker, Eff.removeSlot, Eff.mkdirModules] ++ t) :=
  ⟨((installPackage_skip_on_matching_marker envSkip "1.0.0" rfl).1 rfl).1,
   (installPackage_skip_on_matching_marker envSkip "2.0.0" rfl).2 "1.0.0" rfl (by decide)⟩

/-- C10: when the slot exists and the marker version differs from (or
cannot be read against) the requested version, the very first effects are
the stat, the marker read and the removal of the slot — before any network
access — and when the later metadata fetch, tarball stream or extraction
fails, InstallPackage returns that error with the slot still removed: no
effect in the whole trace re-creates the slot (no slot symlink, no marker
write). -/
theorem installPackage_slot_not_restored_on_error (env : InstallEnv) (version : String)
    (hex : env.slotExists = true)
    (hdiff : env.markerVersion.getD "" ≠ version) :
    (∃ t, (InstallPackage env version).2 =
      [Eff.statSlot, Eff.readMarker, Eff.removeSlot] ++ t) ∧
    (([Eff.statSlot, Eff.readMarker, Eff.removeSlot].all (fun e => !e.isNetwork)) = true) ∧
    (env.mkdirOk = true → env.cacheHasSpec = false →
      (env.fetchResult = none →
        (InstallPackage env version).1 = Except.error "failed to fetch metadata" ∧
        ((InstallPackage env version).2.all (fun e => !e.writesSlot)) = true ∧
        Eff.removeSlot ∈ (InstallPackage env version).2) ∧
      (∀ md, env.fetchResult = some md → env.cacheHasResolved = false →
        ((env.streamOk = false →
           (InstallPackage env version).1 = Except.error "failed to stream tarball" ∧
           ((InstallPackage env version).2.all (fun e => !e.writesSlot)) = true ∧
           Eff.removeSlot ∈ (InstallPackage env version).2) ∧
         (env.streamOk = true → env.extractOk = false →
           (InstallPackage env version).1 = Except.error "extract failed" ∧
           ((InstallPackage env version).2.all (fun e => !e.writesSlot)) = true ∧
           Eff.removeSlot ∈ (InstallPackage env version).2)))) := by
  have hb : (env.markerVersion.getD "" == version) = false := by
    simp
    exact hdiff
  refine ⟨?_, by decide, ?_⟩
  · simp only [InstallPackage, hb, Bool.and_false, Bool.false_eq_true, if_false, hex,
      if_true, installAfterCheck]
    exact ⟨_, rfl⟩
  · intro hmk hcs
    constructor
    · intro hfetch
      simp [InstallPackage, hb, hex, hdiff, installAfterCheck, installFetchPhase, hmk,
        hcs, hfetch, Eff.writesSlot]
    · intro md hfetch hres
      constructor
      · intro hstream
        simp [InstallPackage, hb, hex, hdiff, installAfterCheck, installFetchPhase, hmk,
          hcs, hfetch, hres, hstream, Eff.writesSlot]
      · intro hstream hextract
        simp [InstallPackage, hb, hex, hdiff, installAfterCheck, installFetchPhase, hmk,
          hcs, hfetch, hres, hstream, hextract, Eff.writesSlot]

/-- The concrete environment of the C10 witness: installed slot at 1.0.0,
metadata fetch fails. -/
def envFetchFail : InstallEnv :=
  { slotExists := true, markerVersion := some "1.0.0", mkdirOk := true,
    cacheHasSpec := false, fetchResult := none, cacheHasResolved := false,
    streamOk := false, extractOk := false, cas := ⟨[], []⟩, tarballHash := "",
    linkExtractOk := false, symlinkOk := false }

/-- C10 witness: requesting 2.0.0 against a 1.0.0 slot with a failing
metadata fetch removes the slot, returns the fetch error and never
re-creates the slot. -/
theorem installPackage_slot_not_restored_witness :
    (∃ t, (InstallPackage envFetchFail "2.0.0").2 =
      [Eff.statSlot, Eff.readMarker, Eff.removeSlot] ++ t) ∧
    (InstallPackage envFetchFail "2.0.0").1 = Except.error "failed to fetch metadata" ∧
    ((InstallPackage envFetchFail "2.0.0").2.all (fun e => !e.writesSlot)) = true :=
  have h := installPackage_slot_not_restored_on_error envFetchFail "2.0.0" rfl (by decide)
  ⟨h.1, ((h.2.2 rfl rfl).1 rfl).1, ((h.2.2 rfl rfl).1 rfl).2.1⟩

/-! ### Installer: writeIntegrity (internal/installer/installer.go) -/

/-- The filesystem operations relevant to writing the integrity marker. -/
inductive FsOp where
  | mkdirAll (p : String)
  | writeFile (p : String) (data : String)
  | rename (src : String) (dst : String)
deriving DecidableEq

/-- Whether an operation is a rename. -/
def FsOp.isRename : FsOp → Bool
  | .rename _ _ => true
  | _ => false

/-- Embedding of integrityFile: the marker path inside a slot directory. -/
def integrityFilePath (dir : String) : String := dir ++ "/.npgo-integrity.json"

/-- The marker document produced by the fmt.Sprintf call in
writeIntegrity. -/
def integrityMarkerDoc (name version hash : String) : String :=
  "\x7b\n  \"name\": \"" ++ name ++ "\",\n  \"version\": \"" ++ version ++
    "\",\n  \"hash\": \"" ++ hash ++ "\"\n\x7d\n"

/-- Embedding of writeIntegrity (installer.go lines 310-316): MkdirAll on
the slot directory, then a single os.WriteFile directly at the final
marker path. -/
def writeIntegrityOps (dir name version hash : String) : List FsOp :=
  [FsOp.mkdirAll dir,
   FsOp.writeFile (integrityFilePath dir) (integrityMarkerDoc name version hash)]

/-- The write-then-rename discipline the claim describes: the operation
list ends with a write to a sibling temporary path followed by a rename of
that path onto the final path. -/
def writesViaTempThenRename (ops : List FsOp) (final : String) : Prop :=
  ∃ pre tmp data, tmp ≠ final ∧
    ops = pre ++ [FsOp.writeFile tmp data, FsOp.rename tmp final]

/-- C9 counterexample: at a concrete slot, writeIntegrity performs no
rename at all — its last operation is the direct write of the marker — so
it does not follow the write-to-temp-then-rename discipline. -/
theorem writeIntegrity_not_write_then_rename :
    ¬ writesViaTempThenRename (writeIntegrityOps "nm/a" "a" "1.0.0" "")
        (integrityFilePath "nm/a") := by
  rintro ⟨pre, tmp, data, hne, heq⟩
  have hlast : (writeIntegrityOps "nm/a" "a" "1.0.0" "").getLast? =
      some (FsOp.writeFile (integrityFilePath "nm/a") (integrityMarkerDoc "a" "1.0.0" "")) :=
    rfl
  rw [heq] at hlast
  rw [show pre ++ [FsOp.writeFile tmp data, FsOp.rename tmp (integrityFilePath "nm/a")] =
      (pre ++ [FsOp.writeFile tmp data]) ++ [FsOp.rename tmp (integrityFilePath "nm/a")]
    by simp] at hlast
  rw [List.getLast?_concat] at hlast
  cases hlast

/-- C9 amended: writeIntegrity writes the marker in place — an MkdirAll of
the slot directory followed by one direct write at the final marker path;
no operation is a rename and no temporary file is involved, so the write
is not atomic against a crash mid-write. -/
theorem writeIntegrity_writes_marker_directly (dir name version hash : String) :
    ((writeIntegrityOps dir name version hash).all (fun op => !op.isRename)) = true ∧
    (∃ d, FsOp.writeFile (integrityFilePath dir) d ∈ writeIntegrityOps dir name version hash) ∧
    ¬ writesViaTempThenRename (writeIntegrityOps dir name version hash)
        (integrityFilePath dir) := by
  refine ⟨by simp [writeIntegrityOps, FsOp.isRename],
    ⟨integrityMarkerDoc name version hash, by simp [writeIntegrityOps]⟩, ?_⟩
  rintro ⟨pre, tmp, data, hne, heq⟩
  have hlast : (writeIntegrityOps dir name version hash).getLast? =
      some (FsOp.writeFile (integrityFilePath dir) (integrityMarkerDoc name version hash)) :=
    rfl
  rw [heq] at hlast
  rw [show pre ++ [FsOp.writeFile tmp data, FsOp.rename tmp (integrityFilePath dir)] =
      (pre ++ [FsOp.writeFile tmp data]) ++ [FsOp.rename tmp (integrityFilePath dir)]
    by simp] at hlast
  rw [List.getLast?_concat] at hlast
  cases hlast
